import Mathlib

/-!
Verification of the CPG graph-engine core of this repository.

The development shallowly embeds the two graph-engine implementations:
* `src/context_engine/context_engine.py` — `CpgLoader` (networkx `DiGraph`),
  `Slicer.slice`, `CpgLoader.get_method_of_node`, and the first
  (grouping/flag) phase of `ContextFormatter.format_to_string`;
* `src/agent_system/cpg_interface.py` — `CPGService._load_graph` (igraph,
  a directed multigraph), `CPGService._trace` and
  `CPGService.search_codebase`.

Python dictionaries are modelled as association lists with
replace-in-place update (`aset`) and first-match lookup (`alookup`),
which preserves both the key/value semantics and the insertion order of
CPython dicts.  Fallible operations (Python `KeyError`) are modelled with
`Except String`.
-/

/-- First-match lookup in an association list: the value bound to `k`,
mirroring `d[k]`/`d.get(k)` on a Python dict (keys are unique in an
actual dict, so first match is the binding). -/
def alookup {κ α : Type} [DecidableEq κ] (k : κ) : List (κ × α) → Option α
  | [] => none
  | p :: rest => if p.1 = k then some p.2 else alookup k rest

/-- Dict update `d[k] = v`: replaces the binding in place when the key is
present (CPython keeps the original insertion position), appends
otherwise. -/
def aset {κ α : Type} [DecidableEq κ] (k : κ) (v : α) : List (κ × α) → List (κ × α)
  | [] => [(k, v)]
  | p :: rest => if p.1 = k then (k, v) :: rest else p :: aset k v rest

/-- Dict membership test `k in d`. -/
def keyMem {κ α : Type} [DecidableEq κ] (k : κ) (l : List (κ × α)) : Bool :=
  (alookup k l).isSome

/-- The node attribute dict built by `CpgLoader.load`: the recognized
property keys consumed by the core, plus `label`.  A node created
implicitly by `networkx.add_edge` has an empty attribute dict, hence
`label = none`.  (The `id` attribute and the `alias_map`/`method_map`
side tables of the loader are not consumed by any claim and are
omitted.) -/
structure Attrs where
  label : Option String
  NAME : Option String
  LINE_NUMBER : Option Nat
  FILENAME : Option String
  CODE : Option String
deriving DecidableEq, Repr

def Attrs.empty : Attrs := ⟨none, none, none, none, none⟩

/-- One entry of the input record's `nodes` list. -/
structure NodeRec where
  id : Nat
  label : String
  NAME : Option String
  LINE_NUMBER : Option Nat
  FILENAME : Option String
  CODE : Option String
deriving DecidableEq, Repr

/-- One entry of the input record's `edges` list. -/
structure EdgeRec where
  src : Nat
  dst : Nat
  label : String
deriving DecidableEq, Repr

/-- The parsed JSON input record.  A missing `nodes`/`edges` key is
modelled by `none` (Python `data.get("nodes")` vs `data["nodes"]`). -/
structure CpgRecord where
  nodes : Option (List NodeRec)
  edges : Option (List EdgeRec)
deriving DecidableEq, Repr

/-- `networkx.DiGraph`: node attribute dict plus a single datum per
ordered pair — `add_edge` on an existing pair overwrites its data, which
is exactly the simple-graph (non multigraph) behaviour of `DiGraph`. -/
structure DiGraph where
  nodes : List (Nat × Attrs)
  edges : List ((Nat × Nat) × String)
deriving DecidableEq, Repr

namespace DiGraph

def getAttrs (g : DiGraph) (n : Nat) : Option Attrs := alookup n g.nodes

/-- `add_node(nid, **attrs)` with the full attribute set given, as in
`CpgLoader.load`: inserts or overwrites the attribute dict. -/
def addNode (g : DiGraph) (nid : Nat) (a : Attrs) : DiGraph :=
  { g with nodes := aset nid a g.nodes }

/-- `add_edge` silently materializes a missing endpoint as a node with an
empty attribute dict (networkx behaviour). -/
def ensureNode (g : DiGraph) (nid : Nat) : DiGraph :=
  if (alookup nid g.nodes).isSome then g
  else { g with nodes := g.nodes ++ [(nid, Attrs.empty)] }

/-- `add_edge(src, dst, label=label)`: creates missing endpoints, then
sets the single edge datum for the ordered pair (overwriting any
previous parallel edge). -/
def addEdge (g : DiGraph) (src dst : Nat) (label : String) : DiGraph :=
  let g1 := (g.ensureNode src).ensureNode dst
  { g1 with edges := aset (src, dst) label g1.edges }

def getEdgeData (g : DiGraph) (u v : Nat) : Option String := alookup (u, v) g.edges

def nodeIds (g : DiGraph) : List Nat := g.nodes.map Prod.fst

/-- `graph.predecessors(n)`: nodes `p` with an edge `(p, n)`.  (networkx
iterates the in-adjacency dict; we iterate node-insertion order — the
same set of nodes, and every property proved below is insensitive to
this order.) -/
def predecessors (g : DiGraph) (n : Nat) : List Nat :=
  g.nodeIds.filter (fun p => (g.getEdgeData p n).isSome)

/-- `graph.successors(n)`: nodes `q` with an edge `(n, q)`. -/
def successors (g : DiGraph) (n : Nat) : List Nat :=
  g.nodeIds.filter (fun q => (g.getEdgeData n q).isSome)

def nodeFinset (g : DiGraph) : Finset Nat := g.nodeIds.toFinset

end DiGraph

namespace CpgLoader

def attrsOfNode (n : NodeRec) : Attrs :=
  { label := some n.label, NAME := n.NAME, LINE_NUMBER := n.LINE_NUMBER,
    FILENAME := n.FILENAME, CODE := n.CODE }

/-- `CpgLoader.load`: `data.get("nodes", [])` / `data.get("edges", [])` —
a missing key silently becomes the empty list; then every node is added,
then every edge (dangling endpoints included: `add_edge` materializes
them). -/
def load (data : CpgRecord) : DiGraph :=
  let ns := data.nodes.getD []
  let es := data.edges.getD []
  let g1 := ns.foldl (fun g n => g.addNode n.id (attrsOfNode n)) ⟨[], []⟩
  es.foldl (fun g e => g.addEdge e.src e.dst e.label) g1

end CpgLoader

section BasicLemmas

theorem alookup_isSome_of_aset {κ α : Type} [DecidableEq κ] (k : κ) (v : α) :
    ∀ l : List (κ × α), alookup k (aset k v l) = some v := by
  intro l
  induction l with
  | nil => simp [aset, alookup]
  | cons p rest ih =>
    by_cases h : p.1 = k
    · simp [aset, h, alookup]
    · simp [aset, h, alookup, ih]

theorem alookup_isSome_mem_keys {κ α : Type} [DecidableEq κ] {k : κ} {v : α} :
    ∀ {l : List (κ × α)}, alookup k l = some v → k ∈ l.map Prod.fst := by
  intro l
  induction l with
  | nil => simp [alookup]
  | cons p rest ih =>
    intro h
    unfold alookup at h
    by_cases hpk : p.1 = k
    · simp [hpk.symm]
    · simp [hpk] at h
      simp [ih h]

theorem getAttrs_mem_nodeIds {g : DiGraph} {n : Nat} {a : Attrs}
    (h : g.getAttrs n = some a) : n ∈ g.nodeIds :=
  alookup_isSome_mem_keys h

theorem getAttrs_mem_nodeFinset {g : DiGraph} {n : Nat} {a : Attrs}
    (h : g.getAttrs n = some a) : n ∈ g.nodeFinset := by
  simp [DiGraph.nodeFinset]
  exact getAttrs_mem_nodeIds h

theorem predecessors_subset_nodeIds (g : DiGraph) (n : Nat) :
    ∀ x ∈ g.predecessors n, x ∈ g.nodeIds := by
  intro x hx
  exact List.mem_of_mem_filter hx

theorem successors_subset_nodeIds (g : DiGraph) (n : Nat) :
    ∀ x ∈ g.successors n, x ∈ g.nodeIds := by
  intro x hx
  exact List.mem_of_mem_filter hx

theorem predecessors_length_le (g : DiGraph) (n : Nat) :
    (g.predecessors n).length ≤ g.nodes.length := by
  calc (g.predecessors n).length ≤ g.nodeIds.length := List.length_filter_le _ _
  _ = g.nodes.length := by simp [DiGraph.nodeIds]

theorem successors_length_le (g : DiGraph) (n : Nat) :
    (g.successors n).length ≤ g.nodes.length := by
  calc (g.successors n).length ≤ g.nodeIds.length := List.length_filter_le _ _
  _ = g.nodes.length := by simp [DiGraph.nodeIds]

end BasicLemmas

namespace Slicer

/-- The default edge-kind set substituted by `Slicer.slice` when
`edge_types` is `None`. -/
def defaultKinds : List String := ["REACHING_DEF", "CDG", "REF"]

def resolveKinds : Option (List String) → List String
  | none => defaultKinds
  | some l => l

/-- `neighbors` selection of `Slicer.slice`: predecessors for
`backward`, successors for `forward`, and the empty list for any other
direction string. -/
def neighborsOf (g : DiGraph) (dir : String) (curr : Nat) : List Nat :=
  if dir = "backward" then g.predecessors curr
  else if dir = "forward" then g.successors curr
  else []

/-- The inner `for neighbor in neighbors` loop of `Slicer.slice`: skip
visited neighbors, look up the (single, `DiGraph`) edge datum in the
requested orientation, and admit the neighbor when its label is in
`edge_types`.  Returns the final visited set and the admitted neighbors
in discovery order.  (The `none` edge-datum branch is unreachable:
neighbors are produced by the very existence of that edge.) -/
def expandStep (g : DiGraph) (dir : String) (kinds : List String) (curr : Nat) :
    List Nat → Finset Nat → Finset Nat × List Nat
  | [], V => (V, [])
  | nb :: rest, V =>
    if nb ∈ V then expandStep g dir kinds curr rest V
    else
      match (if dir = "backward" then g.getEdgeData nb curr else g.getEdgeData curr nb) with
      | none => expandStep g dir kinds curr rest V
      | some label =>
        if kinds.contains label then
          let r := expandStep g dir kinds curr rest (insert nb V)
          (r.1, nb :: r.2)
        else expandStep g dir kinds curr rest V

theorem expandStep_visited_subset (g : DiGraph) (dir : String) (kinds : List String)
    (curr : Nat) : ∀ (l : List Nat) (V : Finset Nat),
    V ⊆ (expandStep g dir kinds curr l V).1 := by
  intro l
  induction l with
  | nil => intro V; simp [expandStep]
  | cons nb rest ih =>
    intro V
    unfold expandStep
    by_cases hv : nb ∈ V
    · rw [if_pos hv]; exact ih V
    · rw [if_neg hv]
      cases hE : (if dir = "backward" then g.getEdgeData nb curr else g.getEdgeData curr nb) with
      | none => simp only [hE]; exact ih V
      | some label =>
        simp only [hE]
        by_cases hk : kinds.contains label = true
        · rw [if_pos hk]
          exact fun x hx => ih (insert nb V) (Finset.mem_insert_of_mem hx)
        · rw [if_neg hk]; exact ih V

theorem expandStep_nil_eq (g : DiGraph) (dir : String) (kinds : List String)
    (curr : Nat) : ∀ (l : List Nat) (V : Finset Nat),
    (expandStep g dir kinds curr l V).2 = [] → (expandStep g dir kinds curr l V).1 = V := by
  intro l
  induction l with
  | nil => intro V _; simp [expandStep]
  | cons nb rest ih =>
    intro V
    unfold expandStep
    by_cases hv : nb ∈ V
    · rw [if_pos hv]; exact ih V
    · rw [if_neg hv]
      cases hE : (if dir = "backward" then g.getEdgeData nb curr else g.getEdgeData curr nb) with
      | none => simp only [hE]; exact ih V
      | some label =>
        simp only [hE]
        by_cases hk : kinds.contains label = true
        · rw [if_pos hk]; intro h; exact absurd h (List.cons_ne_nil _ _)
        · rw [if_neg hk]; exact ih V

theorem expandStep_ne_nil (g : DiGraph) (dir : String) (kinds : List String)
    (curr : Nat) : ∀ (l : List Nat) (V : Finset Nat),
    (expandStep g dir kinds curr l V).2 ≠ [] →
    ∃ x, x ∈ l ∧ x ∉ V ∧ x ∈ (expandStep g dir kinds curr l V).1 := by
  intro l
  induction l with
  | nil => intro V h; simp [expandStep] at h
  | cons nb rest ih =>
    intro V
    unfold expandStep
    by_cases hv : nb ∈ V
    · rw [if_pos hv]
      intro h
      obtain ⟨x, hx1, hx2, hx3⟩ := ih V h
      exact ⟨x, List.mem_cons_of_mem _ hx1, hx2, hx3⟩
    · rw [if_neg hv]
      cases hE : (if dir = "backward" then g.getEdgeData nb curr else g.getEdgeData curr nb) with
      | none =>
        simp only [hE]
        intro h
        obtain ⟨x, hx1, hx2, hx3⟩ := ih V h
        exact ⟨x, List.mem_cons_of_mem _ hx1, hx2, hx3⟩
      | some label =>
        simp only [hE]
        by_cases hk : kinds.contains label = true
        · rw [if_pos hk]
          intro _
          refine ⟨nb, List.mem_cons_self _ _, hv, ?_⟩
          exact expandStep_visited_subset g dir kinds curr rest (insert nb V)
            (Finset.mem_insert_self nb V)
        · rw [if_neg hk]
          intro h
          obtain ⟨x, hx1, hx2, hx3⟩ := ih V h
          exact ⟨x, List.mem_cons_of_mem _ hx1, hx2, hx3⟩

theorem expandStep_length_le (g : DiGraph) (dir : String) (kinds : List String)
    (curr : Nat) : ∀ (l : List Nat) (V : Finset Nat),
    (expandStep g dir kinds curr l V).2.length ≤ l.length := by
  intro l
  induction l with
  | nil => intro V; simp [expandStep]
  | cons nb rest ih =>
    intro V
    unfold expandStep
    by_cases hv : nb ∈ V
    · rw [if_pos hv]; exact Nat.le_succ_of_le (ih V)
    · rw [if_neg hv]
      cases hE : (if dir = "backward" then g.getEdgeData nb curr else g.getEdgeData curr nb) with
      | none => simp only [hE]; exact Nat.le_succ_of_le (ih V)
      | some label =>
        simp only [hE]
        by_cases hk : kinds.contains label = true
        · rw [if_pos hk]
          simpa using Nat.succ_le_succ (ih (insert nb V))
        · rw [if_neg hk]; exact Nat.le_succ_of_le (ih V)

theorem neighborsOf_subset_nodeIds (g : DiGraph) (dir : String) (curr : Nat) :
    ∀ x ∈ neighborsOf g dir curr, x ∈ g.nodeIds := by
  intro x hx
  unfold neighborsOf at hx
  by_cases h1 : dir = "backward"
  · simp [h1] at hx; exact predecessors_subset_nodeIds g curr x hx
  · by_cases h2 : dir = "forward"
    · simp [h1, h2] at hx; exact successors_subset_nodeIds g curr x hx
    · simp [h1, h2] at hx

theorem neighborsOf_length_le (g : DiGraph) (dir : String) (curr : Nat) :
    (neighborsOf g dir curr).length ≤ g.nodes.length := by
  unfold neighborsOf
  by_cases h1 : dir = "backward"
  · simp [h1]; exact predecessors_length_le g curr
  · by_cases h2 : dir = "forward"
    · simp [h1, h2]; exact successors_length_le g curr
    · simp [h1, h2]

/-- The `while queue` loop of `Slicer.slice`.  Queue entries are
`(node, depth)`; an entry with `depth ≥ maxDepth` is not expanded
(cutoff on expansion, not inclusion); otherwise the admitted unvisited
neighbors are appended to the queue at `d + 1`, to the visited set, and
to `result_nodes` with flag `False`.  Returns the final visited set and
the `result_nodes` insertion-ordered dict. -/
def bfs (g : DiGraph) (dir : String) (kinds : List String) (depth : Nat) :
    List (Nat × Nat) → Finset Nat → List (Nat × Bool) → Finset Nat × List (Nat × Bool)
  | [], V, R => (V, R)
  | (curr, d) :: rest, V, R =>
    if depth ≤ d then bfs g dir kinds depth rest V R
    else
      bfs g dir kinds depth
        (rest ++ (expandStep g dir kinds curr (neighborsOf g dir curr) V).2.map
          (fun n => (n, d + 1)))
        (expandStep g dir kinds curr (neighborsOf g dir curr) V).1
        (R ++ (expandStep g dir kinds curr (neighborsOf g dir curr) V).2.map
          (fun n => (n, false)))
termination_by q V _ => (g.nodeFinset \ V).card * (g.nodes.length + 1) + q.length
decreasing_by
· simp only [List.length_cons]
  omega
· by_cases hnil : (expandStep g dir kinds curr (neighborsOf g dir curr) V).2 = []
  · rw [expandStep_nil_eq g dir kinds curr _ V hnil, hnil]
    simp only [List.map_nil, List.append_nil, List.length_cons]
    omega
  · obtain ⟨x, hx1, hx2, hx3⟩ := expandStep_ne_nil g dir kinds curr _ V hnil
    have hxg : x ∈ g.nodeFinset := by
      simp only [DiGraph.nodeFinset, List.mem_toFinset]
      exact neighborsOf_subset_nodeIds g dir curr x hx1
    have hsub : g.nodeFinset \ (expandStep g dir kinds curr (neighborsOf g dir curr) V).1 ⊂
        g.nodeFinset \ V := by
      constructor
      · intro y hy
        simp only [Finset.mem_sdiff] at hy ⊢
        exact ⟨hy.1, fun hyV => hy.2 (expandStep_visited_subset g dir kinds curr _ V hyV)⟩
      · intro hcon
        have hx4 : x ∈ g.nodeFinset \ V := Finset.mem_sdiff.mpr ⟨hxg, hx2⟩
        have := hcon hx4
        simp only [Finset.mem_sdiff] at this
        exact this.2 hx3
    have hcard : (g.nodeFinset \ (expandStep g dir kinds curr (neighborsOf g dir curr) V).1).card
        < (g.nodeFinset \ V).card := Finset.card_lt_card hsub
    have hlen : (expandStep g dir kinds curr (neighborsOf g dir curr) V).2.length ≤
        g.nodes.length :=
      le_trans (expandStep_length_le g dir kinds curr _ V) (neighborsOf_length_le g dir curr)
    have hmul : ((g.nodeFinset \ (expandStep g dir kinds curr (neighborsOf g dir curr) V).1).card
          + 1) * (g.nodes.length + 1) ≤ (g.nodeFinset \ V).card * (g.nodes.length + 1) :=
      Nat.mul_le_mul_right _ hcard
    simp only [List.length_append, List.length_map, List.length_cons]
    rw [Nat.add_mul, Nat.one_mul] at hmul
    omega

/-- `Slicer.slice(seed, direction, depth, edge_types)`.  The `None`
fallback for `edge_types` is replaced by the default kind set; the
attribute lookup `self.graph.nodes[seed_node_id]` raises `KeyError` for
an unknown seed (modelled as `.error`), otherwise the BFS runs from the
seed (visited and included at depth 0) and the insertion-ordered
`(result_nodes, seed_name)` pair is returned. -/
def slice (g : DiGraph) (seed_node_id : Nat) (direction : String := "backward")
    (depth : Nat := 5) (edge_types : Option (List String) := none) :
    Except String (List (Nat × Bool) × String) :=
  let kinds := resolveKinds edge_types
  match g.getAttrs seed_node_id with
  | none => .error "KeyError"
  | some a =>
    let seed_name := a.NAME.getD "unknown"
    .ok ((bfs g direction kinds depth [(seed_node_id, 0)] {seed_node_id}
      [(seed_node_id, false)]).2, seed_name)

end Slicer

namespace Slicer

/-- Expansion of a whole BFS level, neighbor lists processed in queue
order, threading the visited set. -/
def expandList (g : DiGraph) (dir : String) (kinds : List String) :
    List Nat → Finset Nat → Finset Nat × List Nat
  | [], V => (V, [])
  | u :: us, V =>
    let p := expandStep g dir kinds u (neighborsOf g dir u) V
    let q := expandList g dir kinds us p.1
    (q.1, p.2 ++ q.2)

/-- Level-by-level reformulation of the BFS of `Slicer.slice`: run `n`
more levels from frontier `F`.  Structurally recursive, hence usable for
concrete evaluation, and proved equal to the queue-based loop below. -/
def levelRun (g : DiGraph) (dir : String) (kinds : List String) :
    Nat → List Nat → Finset Nat → List (Nat × Bool) → Finset Nat × List (Nat × Bool)
  | 0, _, V, R => (V, R)
  | n + 1, F, V, R =>
    let p := expandList g dir kinds F V
    levelRun g dir kinds n p.2 p.1 (R ++ p.2.map (fun v => (v, false)))

theorem bfs_skip_all (g : DiGraph) (dir : String) (kinds : List String) (depth : Nat) :
    ∀ (q : List (Nat × Nat)) (V : Finset Nat) (R : List (Nat × Bool)),
    (∀ p ∈ q, depth ≤ p.2) → bfs g dir kinds depth q V R = (V, R) := by
  intro q
  induction q with
  | nil => intro V R _; rw [bfs]
  | cons e rest ih =>
    intro V R h
    obtain ⟨curr, d⟩ := e
    rw [bfs, if_pos (h (curr, d) (List.mem_cons_self _ _))]
    exact ih V R (fun p hp => h p (List.mem_cons_of_mem _ hp))

theorem bfs_two_levels (g : DiGraph) (dir : String) (kinds : List String) (depth k : Nat)
    (hk : ¬ depth ≤ k) :
    ∀ (A B : List Nat) (V : Finset Nat) (R : List (Nat × Bool)),
    bfs g dir kinds depth
      (A.map (fun u => (u, k)) ++ B.map (fun v => (v, k + 1))) V R =
    bfs g dir kinds depth
      ((B ++ (expandList g dir kinds A V).2).map (fun v => (v, k + 1)))
      (expandList g dir kinds A V).1
      (R ++ (expandList g dir kinds A V).2.map (fun v => (v, false))) := by
  intro A
  induction A with
  | nil => intro B V R; simp [expandList]
  | cons u us ih =>
    intro B V R
    simp only [List.map_cons, List.cons_append]
    rw [bfs, if_neg hk]
    have hq : us.map (fun u => (u, k)) ++ B.map (fun v => (v, k + 1)) ++
        (expandStep g dir kinds u (neighborsOf g dir u) V).2.map (fun n => (n, k + 1)) =
        us.map (fun u => (u, k)) ++
        (B ++ (expandStep g dir kinds u (neighborsOf g dir u) V).2).map
          (fun v => (v, k + 1)) := by
      simp [List.map_append]
    rw [hq, ih]
    have hcons : expandList g dir kinds (u :: us) V =
        ((expandList g dir kinds us (expandStep g dir kinds u (neighborsOf g dir u) V).1).1,
         (expandStep g dir kinds u (neighborsOf g dir u) V).2 ++
           (expandList g dir kinds us (expandStep g dir kinds u (neighborsOf g dir u) V).1).2) :=
      rfl
    rw [hcons]
    simp only [List.map_append, List.append_assoc]

theorem bfs_eq_levelRun (g : DiGraph) (dir : String) (kinds : List String) (depth : Nat) :
    ∀ (m k : Nat), m = depth - k →
    ∀ (F : List Nat) (V : Finset Nat) (R : List (Nat × Bool)),
    bfs g dir kinds depth (F.map (fun u => (u, k))) V R = levelRun g dir kinds m F V R := by
  intro m
  induction m with
  | zero =>
    intro k hm F V R
    have hk : depth ≤ k := Nat.le_of_sub_eq_zero hm.symm
    rw [levelRun, bfs_skip_all]
    intro p hp
    simp only [List.mem_map] at hp
    obtain ⟨u, _, hu⟩ := hp
    rw [← hu]
    exact hk
  | succ n ih =>
    intro k hm F V R
    have hk : ¬ depth ≤ k := by omega
    have h0 := bfs_two_levels g dir kinds depth k hk F [] V R
    simp only [List.map_nil, List.append_nil] at h0
    rw [h0, ih (k + 1) (by omega)]
    rfl

/-- `Slicer.slice` computed through the level-by-level run: the bridge
used both for concrete evaluation and for the monotonicity proofs. -/
theorem slice_eq_levelRun (g : DiGraph) (seed : Nat) (dir : String) (depth : Nat)
    (edge_types : Option (List String)) :
    slice g seed dir depth edge_types =
      match g.getAttrs seed with
      | none => .error "KeyError"
      | some a =>
        .ok ((levelRun g dir (resolveKinds edge_types) depth [seed] {seed}
          [(seed, false)]).2, a.NAME.getD "unknown") := by
  unfold slice
  cases h : g.getAttrs seed with
  | none => rfl
  | some a =>
    simp only
    have := bfs_eq_levelRun g dir (resolveKinds edge_types) depth depth 0 (by omega)
      [seed] {seed} [(seed, false)]
    simp only [List.map_cons, List.map_nil] at this
    rw [this]

theorem levelRun_result_grows (g : DiGraph) (dir : String) (kinds : List String) :
    ∀ (m : Nat) (F : List Nat) (V : Finset Nat) (R : List (Nat × Bool)),
    ∀ x ∈ R, x ∈ (levelRun g dir kinds m F V R).2 := by
  intro m
  induction m with
  | zero => intro F V R x hx; simpa [levelRun] using hx
  | succ n ih =>
    intro F V R x hx
    rw [levelRun]
    exact ih _ _ _ x (List.mem_append_left _ hx)

theorem levelRun_mono (g : DiGraph) (dir : String) (kinds : List String) :
    ∀ (n m : Nat), n ≤ m →
    ∀ (F : List Nat) (V : Finset Nat) (R : List (Nat × Bool)),
    ∀ x ∈ (levelRun g dir kinds n F V R).2, x ∈ (levelRun g dir kinds m F V R).2 := by
  intro n
  induction n with
  | zero =>
    intro m _ F V R x hx
    rw [levelRun] at hx
    exact levelRun_result_grows g dir kinds m F V R x hx
  | succ n ih =>
    intro m hnm F V R x hx
    obtain ⟨m', rfl⟩ : ∃ m', m = m' + 1 := ⟨m - 1, by omega⟩
    rw [levelRun] at hx ⊢
    exact ih m' (by omega) _ _ _ x hx

end Slicer

namespace CpgLoader

/-- The structural predecessors used by the ownership ascent: incoming
edges whose label is `AST` or `CONTAINS` (and no other kind). -/
def structPreds (g : DiGraph) (curr : Nat) : List Nat :=
  (g.predecessors curr).filter (fun p =>
    match g.getEdgeData p curr with
    | some l => l == "AST" || l == "CONTAINS"
    | none => false)

theorem structPreds_subset_nodeIds (g : DiGraph) (curr : Nat) :
    ∀ x ∈ structPreds g curr, x ∈ g.nodeIds := by
  intro x hx
  exact predecessors_subset_nodeIds g curr x (List.mem_of_mem_filter hx)

theorem structPreds_length_le (g : DiGraph) (curr : Nat) :
    (structPreds g curr).length ≤ g.nodes.length := by
  calc (structPreds g curr).length ≤ (g.predecessors curr).length :=
        List.length_filter_le _ _
  _ ≤ g.nodes.length := predecessors_length_le g curr

/-- The `while queue` loop of `CpgLoader.get_method_of_node`: pop, skip
if already visited, raise `KeyError` when the popped id is not a graph
node (`self.graph.nodes[curr]`), return the node itself when it is a
`METHOD`, else enqueue the structural predecessors. -/
def ascendLoop (g : DiGraph) : List Nat → Finset Nat → Except String (Option Nat)
  | [], _ => .ok none
  | curr :: rest, visited =>
    if curr ∈ visited then ascendLoop g rest visited
    else
      match h : g.getAttrs curr with
      | none => .error "KeyError"
      | some nd =>
        if nd.label = some "METHOD" then .ok (some curr)
        else ascendLoop g (rest ++ structPreds g curr) (insert curr visited)
termination_by q V => (g.nodeFinset \ V).card * (g.nodes.length + 1) + q.length
decreasing_by
· simp only [List.length_cons]
  omega
· rename_i hv hlab
  have hmem : nb ∈ g.nodeFinset := getAttrs_mem_nodeFinset h
  have hsub : g.nodeFinset \ insert nb V ⊂ g.nodeFinset \ V := by
    constructor
    · intro y hy
      simp only [Finset.mem_sdiff, Finset.mem_insert] at hy ⊢
      exact ⟨hy.1, fun hyV => hy.2 (Or.inr hyV)⟩
    · intro hcon
      have hx4 : nb ∈ g.nodeFinset \ V := Finset.mem_sdiff.mpr ⟨hmem, hv⟩
      have hni : nb ∉ insert nb V := (Finset.mem_sdiff.mp (hcon hx4)).2
      exact hni (Finset.mem_insert_self nb V)
  have hcard : (g.nodeFinset \ insert nb V).card < (g.nodeFinset \ V).card :=
    Finset.card_lt_card hsub
  have hlen : (structPreds g nb).length ≤ g.nodes.length := structPreds_length_le g nb
  have hmul : ((g.nodeFinset \ insert nb V).card + 1) * (g.nodes.length + 1) ≤
      (g.nodeFinset \ V).card * (g.nodes.length + 1) :=
    Nat.mul_le_mul_right _ hcard
  simp only [List.length_append, List.length_cons]
  rw [Nat.add_mul, Nat.one_mul] at hmul
  omega

/-- `CpgLoader.get_method_of_node`, with the loader's `node_to_method`
memoization dict threaded explicitly: a cached id is returned at once;
otherwise the ascent runs and — only when a `METHOD` is found — the dict
gains the binding `node_id ↦ method` (`self.node_to_method[node_id] =
curr`).  A `None` outcome leaves the dict untouched: the source has no
write on that return path. -/
def get_method_of_node (g : DiGraph) (node_to_method : List (Nat × Nat)) (node_id : Nat) :
    Except String (Option Nat × List (Nat × Nat)) :=
  match alookup node_id node_to_method with
  | some m => .ok (some m, node_to_method)
  | none =>
    match ascendLoop g [node_id] ∅ with
    | .error e => .error e
    | .ok (some m) => .ok (some m, node_to_method ++ [(node_id, m)])
    | .ok none => .ok (none, node_to_method)

end CpgLoader

namespace CpgLoader

theorem ascendLoop_nil (g : DiGraph) (V : Finset Nat) :
    ascendLoop g [] V = .ok none := by
  rw [ascendLoop]

theorem ascendLoop_cons (g : DiGraph) (curr : Nat) (rest : List Nat) (V : Finset Nat) :
    ascendLoop g (curr :: rest) V =
      (if curr ∈ V then ascendLoop g rest V
       else match g.getAttrs curr with
        | none => .error "KeyError"
        | some nd =>
          if nd.label = some "METHOD" then .ok (some curr)
          else ascendLoop g (rest ++ structPreds g curr) (insert curr V)) := by
  rw [ascendLoop]
  rcases h : g.getAttrs curr with _ | nd
  · simp [h]
  · simp [h]

end CpgLoader

/-- The in-memory state of `CPGService` after `_load_graph`: an igraph
directed multigraph (vertex indices `0 .. vcount-1`, an edge list that
keeps parallel edges) plus the side lookup dicts. -/
structure IgService where
  vcount : Nat
  id_to_idx : List (Nat × Nat)
  idx_to_id : List (Nat × Nat)
  idx_to_label : List (Nat × String)
  idx_to_code : List (Nat × String)
  idx_to_name : List (Nat × String)
  idx_to_file : List (Nat × String)
  edges : List (Nat × Nat × String)
deriving DecidableEq, Repr

namespace CPGService

/-- The loading body of `CPGService._load_graph` once both record keys
are present: `add_vertices(len(nodes))`, the per-node dict fills (a
duplicate external id overwrites its `id_to_idx` binding), then the edge
loop that keeps an edge only when both endpoints are known external ids
— parallel edges are preserved (igraph is a multigraph). -/
def nodeFill (s : IgService) (p : Nat × NodeRec) : IgService :=
  { s with
    id_to_idx := aset p.2.id p.1 s.id_to_idx,
    idx_to_id := aset p.1 p.2.id s.idx_to_id,
    idx_to_label := aset p.1 p.2.label s.idx_to_label,
    idx_to_code := aset p.1 (p.2.CODE.getD "") s.idx_to_code,
    idx_to_name := aset p.1 (p.2.NAME.getD "") s.idx_to_name,
    idx_to_file := aset p.1 (p.2.FILENAME.getD "") s.idx_to_file }

/-- The edge-loop body: keep the edge only when both endpoint ids are
known (`e["src"] in self.id_to_idx and e["dst"] in self.id_to_idx`). -/
def edgeKeep (m : List (Nat × Nat)) (acc : List (Nat × Nat × String)) (e : EdgeRec) :
    List (Nat × Nat × String) :=
  match alookup e.src m, alookup e.dst m with
  | some si, some di => acc ++ [(si, di, e.label)]
  | _, _ => acc

def buildService (ns : List NodeRec) (es : List EdgeRec) : IgService :=
  let s1 := ns.enum.foldl nodeFill ⟨ns.length, [], [], [], [], [], [], []⟩
  { s1 with edges := es.foldl (edgeKeep s1.id_to_idx) [] }

/-- `CPGService._load_graph`: `data["nodes"]` / `data["edges"]` raise
`KeyError` when the key is missing (`nodes` is accessed first), so
construction aborts and no service object exists; otherwise the service
is built. -/
def loadGraph (data : CpgRecord) : Except String IgService :=
  match data.nodes with
  | none => .error "KeyError: nodes"
  | some ns =>
    match data.edges with
    | none => .error "KeyError: edges"
    | some es => .ok (buildService ns es)

/-- An edge of the record is dangling when either endpoint id is absent
from `id_to_idx` — the drop condition of `_load_graph`. -/
def isDangling (s1 : IgService) (e : EdgeRec) : Bool :=
  (alookup e.src s1.id_to_idx).isNone || (alookup e.dst s1.id_to_idx).isNone

/-- `self.g.neighbors(curr_idx, mode)`: adjacent vertex indices with
multiplicity, one occurrence per incident edge in the requested mode. -/
def traceNbrs (s : IgService) (modeOut : Bool) (curr : Nat) : List Nat :=
  if modeOut then (s.edges.filter (fun e => e.1 == curr)).map (fun e => e.2.1)
  else (s.edges.filter (fun e => e.2.1 == curr)).map (fun e => e.1)

/-- `self.g.es.select(_source=a, _target=b)`: the labels of all parallel
edges from `a` to `b`, in edge-list order. -/
def edgesBetween (s : IgService) (a b : Nat) : List String :=
  (s.edges.filter (fun e => e.1 == a && e.2.1 == b)).map (fun e => e.2.2)

/-- `.get(i, default)`-style lookups used when building a hop record. -/
def nameOrLabel (s : IgService) (i : Nat) : String :=
  match alookup i s.idx_to_name with
  | some nm => nm
  | none => (alookup i s.idx_to_label).getD ""

/-- One entry of the `trace_result` list of `CPGService._trace`. -/
structure Hop where
  source : String
  target : String
  edge : String
  target_id : Nat
  target_code : String
deriving DecidableEq, Repr

/-- The hop dict appended when a neighbor is first admitted.  (The
`idx_to_id` / `idx_to_code` dicts hold every vertex index by
construction, so the `getD` defaults never fire on a built service.) -/
def hopOf (s : IgService) (curr n : Nat) (elabel : String) : Hop :=
  { source := nameOrLabel s curr, target := nameOrLabel s n, edge := elabel,
    target_id := (alookup n s.idx_to_id).getD 0,
    target_code := ((alookup n s.idx_to_code).getD "").take 30 }

/-- The `for edge in edges` inner loop of `CPGService._trace` over the
parallel edges between the popped vertex and one neighbor: each edge
whose label passes the filter admits the neighbor if it is still
unvisited (so the first passing parallel edge wins, and later ones are
no-ops). -/
def traceInner (s : IgService) (types : List String) (curr n d : Nat) :
    List String → Finset Nat → Finset Nat × List (Nat × Nat) × List Hop
  | [], V => (V, [], [])
  | l :: ls, V =>
    if types.contains l then
      if n ∈ V then traceInner s types curr n d ls V
      else
        let r := traceInner s types curr n d ls (insert n V)
        (r.1, (n, d + 1) :: r.2.1, hopOf s curr n l :: r.2.2)
    else traceInner s types curr n d ls V

/-- The `for n_idx in neighbors` loop of `CPGService._trace`. -/
def traceNbrLoop (s : IgService) (types : List String) (modeOut : Bool) (curr d : Nat) :
    List Nat → Finset Nat → Finset Nat × List (Nat × Nat) × List Hop
  | [], V => (V, [], [])
  | n :: rest, V =>
    ((traceNbrLoop s types modeOut curr d rest
        (traceInner s types curr n d
          (if modeOut then edgesBetween s curr n else edgesBetween s n curr) V).1).1,
     (traceInner s types curr n d
        (if modeOut then edgesBetween s curr n else edgesBetween s n curr) V).2.1 ++
       (traceNbrLoop s types modeOut curr d rest
         (traceInner s types curr n d
           (if modeOut then edgesBetween s curr n else edgesBetween s n curr) V).1).2.1,
     (traceInner s types curr n d
        (if modeOut then edgesBetween s curr n else edgesBetween s n curr) V).2.2 ++
       (traceNbrLoop s types modeOut curr d rest
         (traceInner s types curr n d
           (if modeOut then edgesBetween s curr n else edgesBetween s n curr) V).1).2.2)

/-- All vertex indices that occur as an edge endpoint: every index a
trace can ever enqueue beyond its start. -/
def endpointFinset (s : IgService) : Finset Nat :=
  (s.edges.map (fun e => e.1)).toFinset ∪ (s.edges.map (fun e => e.2.1)).toFinset

theorem traceNbrs_subset_endpoints (s : IgService) (modeOut : Bool) (curr : Nat) :
    ∀ x ∈ traceNbrs s modeOut curr, x ∈ endpointFinset s := by
  intro x hx
  unfold traceNbrs at hx
  unfold endpointFinset
  by_cases h : modeOut
  · simp only [if_pos h, List.mem_map] at hx
    obtain ⟨e, he, hex⟩ := hx
    simp only [Finset.mem_union, List.mem_toFinset, List.mem_map]
    exact Or.inr ⟨e, List.mem_of_mem_filter he, hex⟩
  · simp only [if_neg h, List.mem_map] at hx
    obtain ⟨e, he, hex⟩ := hx
    simp only [Finset.mem_union, List.mem_toFinset, List.mem_map]
    exact Or.inl ⟨e, List.mem_of_mem_filter he, hex⟩

theorem traceNbrs_length_le (s : IgService) (modeOut : Bool) (curr : Nat) :
    (traceNbrs s modeOut curr).length ≤ s.edges.length := by
  unfold traceNbrs
  by_cases h : modeOut
  · simp only [if_pos h, List.length_map]
    exact List.length_filter_le _ _
  · simp only [if_neg h, List.length_map]
    exact List.length_filter_le _ _

theorem traceInner_visited_subset (s : IgService) (types : List String) (curr n d : Nat) :
    ∀ (ls : List String) (V : Finset Nat), V ⊆ (traceInner s types curr n d ls V).1 := by
  intro ls
  induction ls with
  | nil => intro V; simp [traceInner]
  | cons l rest ih =>
    intro V
    unfold traceInner
    by_cases ht : types.contains l = true
    · rw [if_pos ht]
      by_cases hv : n ∈ V
      · rw [if_pos hv]; exact ih V
      · rw [if_neg hv]
        exact fun x hx => ih (insert n V) (Finset.mem_insert_of_mem hx)
    · rw [if_neg ht]; exact ih V

theorem traceInner_nil_eq (s : IgService) (types : List String) (curr n d : Nat) :
    ∀ (ls : List String) (V : Finset Nat),
    (traceInner s types curr n d ls V).2.1 = [] → (traceInner s types curr n d ls V).1 = V := by
  intro ls
  induction ls with
  | nil => intro V _; simp [traceInner]
  | cons l rest ih =>
    intro V
    unfold traceInner
    by_cases ht : types.contains l = true
    · rw [if_pos ht]
      by_cases hv : n ∈ V
      · rw [if_pos hv]; exact ih V
      · rw [if_neg hv]; intro h; exact absurd h (List.cons_ne_nil _ _)
    · rw [if_neg ht]; exact ih V

theorem traceInner_ne_nil (s : IgService) (types : List String) (curr n d : Nat) :
    ∀ (ls : List String) (V : Finset Nat),
    (traceInner s types curr n d ls V).2.1 ≠ [] →
    n ∉ V ∧ n ∈ (traceInner s types curr n d ls V).1 := by
  intro ls
  induction ls with
  | nil => intro V h; simp [traceInner] at h
  | cons l rest ih =>
    intro V
    unfold traceInner
    by_cases ht : types.contains l = true
    · rw [if_pos ht]
      by_cases hv : n ∈ V
      · rw [if_pos hv]; exact ih V
      · rw [if_neg hv]
        intro _
        exact ⟨hv, traceInner_visited_subset s types curr n d rest (insert n V)
          (Finset.mem_insert_self n V)⟩
    · rw [if_neg ht]; exact ih V

theorem traceInner_length_le (s : IgService) (types : List String) (curr n d : Nat) :
    ∀ (ls : List String) (V : Finset Nat), (traceInner s types curr n d ls V).2.1.length ≤ 1 := by
  intro ls
  induction ls with
  | nil => intro V; simp [traceInner]
  | cons l rest ih =>
    intro V
    unfold traceInner
    by_cases ht : types.contains l = true
    · rw [if_pos ht]
      by_cases hv : n ∈ V
      · rw [if_pos hv]; exact ih V
      · rw [if_neg hv]
        simp only [List.length_cons]
        have hz : (traceInner s types curr n d rest (insert n V)).2.1.length = 0 := by
          cases hq : (traceInner s types curr n d rest (insert n V)).2.1 with
          | nil => simp
          | cons a as =>
            exfalso
            have := traceInner_ne_nil s types curr n d rest (insert n V) (by simp [hq])
            exact this.1 (Finset.mem_insert_self n V)
        omega
    · rw [if_neg ht]; exact ih V

theorem traceNbrLoop_visited_subset (s : IgService) (types : List String) (modeOut : Bool)
    (curr d : Nat) : ∀ (l : List Nat) (V : Finset Nat),
    V ⊆ (traceNbrLoop s types modeOut curr d l V).1 := by
  intro l
  induction l with
  | nil => intro V; simp [traceNbrLoop]
  | cons n rest ih =>
    intro V
    unfold traceNbrLoop
    intro x hx
    exact ih _ (traceInner_visited_subset s types curr n d _ V hx)

theorem traceNbrLoop_nil_eq (s : IgService) (types : List String) (modeOut : Bool)
    (curr d : Nat) : ∀ (l : List Nat) (V : Finset Nat),
    (traceNbrLoop s types modeOut curr d l V).2.1 = [] →
    (traceNbrLoop s types modeOut curr d l V).1 = V := by
  intro l
  induction l with
  | nil => intro V _; simp [traceNbrLoop]
  | cons n rest ih =>
    intro V h
    unfold traceNbrLoop at h ⊢
    simp only [List.append_eq_nil] at h
    have h1 := traceInner_nil_eq s types curr n d _ V h.1
    rw [h1] at h ⊢
    exact ih V h.2

theorem traceNbrLoop_ne_nil (s : IgService) (types : List String) (modeOut : Bool)
    (curr d : Nat) : ∀ (l : List Nat) (V : Finset Nat),
    (traceNbrLoop s types modeOut curr d l V).2.1 ≠ [] →
    ∃ x, x ∈ l ∧ x ∉ V ∧ x ∈ (traceNbrLoop s types modeOut curr d l V).1 := by
  intro l
  induction l with
  | nil => intro V h; simp [traceNbrLoop] at h
  | cons n rest ih =>
    intro V h
    unfold traceNbrLoop at h ⊢
    by_cases hp : (traceInner s types curr n d
        (if modeOut then edgesBetween s curr n else edgesBetween s n curr) V).2.1 = []
    · have h1 := traceInner_nil_eq s types curr n d _ V hp
      rw [hp] at h
      rw [h1] at h ⊢
      simp only [List.nil_append] at h
      obtain ⟨x, hx1, hx2, hx3⟩ := ih V h
      exact ⟨x, List.mem_cons_of_mem _ hx1, hx2, hx3⟩
    · obtain ⟨hnv, hni⟩ := traceInner_ne_nil s types curr n d _ V hp
      refine ⟨n, List.mem_cons_self _ _, hnv, ?_⟩
      exact traceNbrLoop_visited_subset s types modeOut curr d rest _ hni

theorem traceNbrLoop_length_le (s : IgService) (types : List String) (modeOut : Bool)
    (curr d : Nat) : ∀ (l : List Nat) (V : Finset Nat),
    (traceNbrLoop s types modeOut curr d l V).2.1.length ≤ l.length := by
  intro l
  induction l with
  | nil => intro V; simp [traceNbrLoop]
  | cons n rest ih =>
    intro V
    unfold traceNbrLoop
    simp only [List.length_append, List.length_cons]
    have h1 := traceInner_length_le s types curr n d
      (if modeOut then edgesBetween s curr n else edgesBetween s n curr) V
    have h2 := ih (traceInner s types curr n d
      (if modeOut then edgesBetween s curr n else edgesBetween s n curr) V).1
    omega

/-- The `while queue` loop of `CPGService._trace`: pop `(curr, depth)`,
do not expand at `depth ≥ max_depth`, otherwise process every neighbor
occurrence and every parallel edge, enqueueing admitted unvisited
neighbors at `depth + 1` and appending their hop records. -/
def traceLoop (s : IgService) (types : List String) (modeOut : Bool) (max_depth : Nat) :
    List (Nat × Nat) → Finset Nat → List Hop → List Hop
  | [], _, acc => acc
  | (curr, d) :: rest, V, acc =>
    if max_depth ≤ d then traceLoop s types modeOut max_depth rest V acc
    else
      traceLoop s types modeOut max_depth
        (rest ++ (traceNbrLoop s types modeOut curr d (traceNbrs s modeOut curr) V).2.1)
        (traceNbrLoop s types modeOut curr d (traceNbrs s modeOut curr) V).1
        (acc ++ (traceNbrLoop s types modeOut curr d (traceNbrs s modeOut curr) V).2.2)
termination_by q V _ => (endpointFinset s \ V).card * (s.edges.length + 1) + q.length
decreasing_by
· simp only [List.length_cons]
  omega
· by_cases hnil : (traceNbrLoop s types modeOut curr d (traceNbrs s modeOut curr) V).2.1 = []
  · rw [traceNbrLoop_nil_eq s types modeOut curr d _ V hnil, hnil]
    simp only [List.append_nil, List.length_cons]
    omega
  · obtain ⟨x, hx1, hx2, hx3⟩ := traceNbrLoop_ne_nil s types modeOut curr d _ V hnil
    have hxg : x ∈ endpointFinset s := traceNbrs_subset_endpoints s modeOut curr x hx1
    have hsub : endpointFinset s \
        (traceNbrLoop s types modeOut curr d (traceNbrs s modeOut curr) V).1 ⊂
        endpointFinset s \ V := by
      constructor
      · intro y hy
        simp only [Finset.mem_sdiff] at hy ⊢
        exact ⟨hy.1, fun hyV =>
          hy.2 (traceNbrLoop_visited_subset s types modeOut curr d _ V hyV)⟩
      · intro hcon
        have hx4 : x ∈ endpointFinset s \ V := Finset.mem_sdiff.mpr ⟨hxg, hx2⟩
        have hni := (Finset.mem_sdiff.mp (hcon hx4)).2
        exact hni hx3
    have hcard := Finset.card_lt_card hsub
    have hlen : (traceNbrLoop s types modeOut curr d (traceNbrs s modeOut curr) V).2.1.length ≤
        s.edges.length :=
      le_trans (traceNbrLoop_length_le s types modeOut curr d _ V)
        (traceNbrs_length_le s modeOut curr)
    have hmul : ((endpointFinset s \
          (traceNbrLoop s types modeOut curr d (traceNbrs s modeOut curr) V).1).card + 1) *
          (s.edges.length + 1) ≤ (endpointFinset s \ V).card * (s.edges.length + 1) :=
      Nat.mul_le_mul_right _ hcard
    simp only [List.length_append, List.length_cons]
    rw [Nat.add_mul, Nat.one_mul] at hmul
    omega

/-- The result of `CPGService._trace`: the distinguished string
`"Node not found."` for an unknown start id, or the hop list. -/
inductive TraceResult where
  | notFound : TraceResult
  | hops : List Hop → TraceResult
deriving DecidableEq, Repr

/-- `CPGService._trace(start_node_id, direction, edge_types, max_depth)`:
an unknown external id yields the distinguished NotFound outcome as a
normal return value (no exception); otherwise a manual BFS with
multigraph-aware edge filtering runs from the start vertex. -/
def trace (s : IgService) (start_node_id : Nat) (direction : String)
    (edge_types : List String) (max_depth : Nat) : TraceResult :=
  match alookup start_node_id s.id_to_idx with
  | none => .notFound
  | some start_idx =>
    .hops (traceLoop s edge_types (direction == "OUT") max_depth
      [(start_idx, 0)] {start_idx} [])

/-- `CPGService.trace_data_flow`: the fixed data-flow edge-kind preset. -/
def trace_data_flow (s : IgService) (start_node_id : Nat) (direction : String := "OUT")
    (max_depth : Nat := 5) : TraceResult :=
  trace s start_node_id direction
    ["REACHING_DEF", "PARAMETER_LINK", "ARGUMENT", "REF", "ALIAS_OF"] max_depth

/-- `CPGService.trace_control_flow`: the fixed control-flow preset. -/
def trace_control_flow (s : IgService) (start_node_id : Nat) (direction : String := "OUT")
    (max_depth : Nat := 5) : TraceResult :=
  trace s start_node_id direction ["CALL", "CFG", "DOMINATE", "CDG"] max_depth

theorem traceLoop_nil (s : IgService) (types : List String) (modeOut : Bool)
    (max_depth : Nat) (V : Finset Nat) (acc : List Hop) :
    traceLoop s types modeOut max_depth [] V acc = acc := by
  rw [traceLoop]

theorem traceLoop_cons (s : IgService) (types : List String) (modeOut : Bool)
    (max_depth curr d : Nat) (rest : List (Nat × Nat)) (V : Finset Nat) (acc : List Hop) :
    traceLoop s types modeOut max_depth ((curr, d) :: rest) V acc =
      (if max_depth ≤ d then traceLoop s types modeOut max_depth rest V acc
       else
        traceLoop s types modeOut max_depth
          (rest ++ (traceNbrLoop s types modeOut curr d (traceNbrs s modeOut curr) V).2.1)
          (traceNbrLoop s types modeOut curr d (traceNbrs s modeOut curr) V).1
          (acc ++ (traceNbrLoop s types modeOut curr d (traceNbrs s modeOut curr) V).2.2)) := by
  rw [traceLoop]

end CPGService

/-- Occurrence test for one character list inside another (the Python
`in` operator on strings). -/
def containsSub (p : List Char) : List Char → Bool
  | [] => p.isEmpty
  | c :: t => p.isPrefixOf (c :: t) || containsSub p t

/-- Python `needle in hay` on strings. -/
def strIn (needle hay : String) : Bool := containsSub needle.data hay.data

namespace CPGService

/-- One result dict of `CPGService.search_codebase`.  (`idx_to_id` /
`idx_to_label` are indexed directly in the source and hold every vertex
index of a built service, so the `getD` defaults never fire there.) -/
structure SearchHit where
  id : Nat
  label : String
  name : String
  code : String
deriving DecidableEq, Repr

def hitOf (s : IgService) (i : Nat) : SearchHit :=
  { id := (alookup i s.idx_to_id).getD 0,
    label := (alookup i s.idx_to_label).getD "",
    name := (alookup i s.idx_to_name).getD "",
    code := ((alookup i s.idx_to_code).getD "").take 50 ++ "..." }

/-- The match test of `search_codebase`: the lowered query occurs in the
lowered `NAME` or in the lowered `CODE` of the vertex. -/
def searchHitTest (s : IgService) (q : String) (i : Nat) : Bool :=
  strIn q ((alookup i s.idx_to_name).getD "").toLower ||
    strIn q ((alookup i s.idx_to_code).getD "").toLower

/-- The scan loop of `search_codebase`: append each match, and `break`
as soon as the result list has reached 20 entries. -/
def searchGo (s : IgService) (q : String) : List Nat → List SearchHit → List SearchHit
  | [], acc => acc
  | i :: rest, acc =>
    if searchHitTest s q i then
      (if 20 ≤ (acc ++ [hitOf s i]).length then acc ++ [hitOf s i]
       else searchGo s q rest (acc ++ [hitOf s i]))
    else searchGo s q rest acc

/-- `CPGService.search_codebase(query)`: lower the query once, then scan
all vertex indices in order. -/
def search_codebase (s : IgService) (query : String) : List SearchHit :=
  searchGo s query.toLower (List.range s.vcount) []

theorem searchGo_take (s : IgService) (q : String) :
    ∀ (l : List Nat) (acc : List SearchHit), acc.length < 20 →
    searchGo s q l acc =
      acc ++ ((l.filter (searchHitTest s q)).map (hitOf s)).take (20 - acc.length) := by
  intro l
  induction l with
  | nil => intro acc _; simp [searchGo]
  | cons i rest ih =>
    intro acc hacc
    unfold searchGo
    by_cases hm : searchHitTest s q i = true
    · rw [if_pos hm]
      simp only [List.length_append, List.length_cons, List.length_nil]
      by_cases h20 : 20 ≤ acc.length + (0 + 1)
      · rw [if_pos h20]
        have h19 : acc.length = 19 := by omega
        simp only [List.filter_cons, hm, if_pos, List.map_cons, h19]
        norm_num
      · rw [if_neg h20]
        rw [ih (acc ++ [hitOf s i]) (by simp; omega)]
        simp only [List.filter_cons, hm, if_pos, List.map_cons, List.append_assoc,
          List.length_append, List.length_cons, List.length_nil]
        have : 20 - acc.length = (20 - (acc.length + (0 + 1))) + 1 := by omega
        rw [this, List.take_succ_cons]
        simp
    · rw [if_neg hm]
      rw [ih acc hacc]
      simp only [List.filter_cons, hm]
      simp

/-- `search_codebase` returns exactly the first 20 matches in
vertex-index order. -/
theorem search_codebase_take (s : IgService) (query : String) :
    search_codebase s query =
      (((List.range s.vcount).filter (searchHitTest s query.toLower)).map (hitOf s)).take 20 := by
  unfold search_codebase
  rw [searchGo_take s query.toLower (List.range s.vcount) [] (by simp)]
  simp

end CPGService

/-- A key of the `node_alias_status` Python dict.  The dict is written
with `(filename, line)` tuple keys, but the guarding membership test
`line not in node_alias_status` queries a bare int — Python dict keys
are arbitrary values, so the model uses a sum of both shapes. -/
inductive PyKey where
  | int : Nat → PyKey
  | pair : String → Nat → PyKey
deriving DecidableEq, Repr

namespace ContextFormatter

/-- The flag bookkeeping of `ContextFormatter.format_to_string` for one
node: `if line not in node_alias_status: node_alias_status[(filename,
line)] = is_alias; else: if not is_alias: ... = False` — note the int
membership test against a dict whose keys are tuples. -/
def statusUpdate (status : List (PyKey × Bool)) (filename : String) (line : Nat)
    (is_alias : Bool) : List (PyKey × Bool) :=
  if keyMem (PyKey.int line) status then
    (if is_alias = false then aset (PyKey.pair filename line) false status else status)
  else aset (PyKey.pair filename line) is_alias status

/-- `files[filename][line].append(node)` on the nested defaultdicts. -/
def groupAdd (files : List (String × List (Nat × List Nat))) (filename : String)
    (line : Nat) (nid : Nat) : List (String × List (Nat × List Nat)) :=
  let inner := (alookup filename files).getD []
  aset filename (aset line (((alookup line inner).getD []) ++ [nid]) inner) files

/-- File-name resolution inside the formatter loop: `filename =
"unknown_file"; if method_id: filename = nodes[method_id].get("FILENAME",
"unknown_file")`.  Python truthiness makes a method id of `0` fall back
to `unknown_file` as well. -/
def methodFilename (g : DiGraph) (mid : Option Nat) : Except String String :=
  match mid with
  | none => .ok "unknown_file"
  | some m =>
    if m = 0 then .ok "unknown_file"
    else
      match g.getAttrs m with
      | none => .error "KeyError"
      | some a => .ok (a.FILENAME.getD "unknown_file")

/-- The state threaded through the first loop of `format_to_string`:
the `files` grouping, the `node_alias_status` dict, and the loader's
`node_to_method` cache (which outlives the call). -/
structure FmtState where
  files : List (String × List (Nat × List Nat))
  status : List (PyKey × Bool)
  cache : List (Nat × Nat)
deriving DecidableEq, Repr

/-- One iteration of `for nid, is_alias in result_nodes.items()`: skip
nodes without a `LINE_NUMBER`, resolve the owning method and its
filename, group the node, and update the line's flag entry. -/
def fmtStep (g : DiGraph) (st : FmtState) (item : Nat × Bool) : Except String FmtState :=
  match g.getAttrs item.1 with
  | none => .error "KeyError"
  | some node =>
    match node.LINE_NUMBER with
    | none => .ok st
    | some line =>
      match CpgLoader.get_method_of_node g st.cache item.1 with
      | .error e => .error e
      | .ok (mid, cache2) =>
        match methodFilename g mid with
        | .error e => .error e
        | .ok filename =>
          .ok { files := groupAdd st.files filename line item.1,
                status := statusUpdate st.status filename line item.2,
                cache := cache2 }

/-- `for nid, is_alias in result_nodes.items()` — the loop driver. -/
def fmtLoop (g : DiGraph) : FmtState → List (Nat × Bool) → Except String FmtState
  | st, [] => .ok st
  | st, item :: rest =>
    match fmtStep g st item with
    | .error e => .error e
    | .ok st2 => fmtLoop g st2 rest

/-- The whole first (grouping and flag-merging) loop of
`ContextFormatter.format_to_string`, starting from the loader's current
memoization cache. -/
def fmtScan (g : DiGraph) (cache0 : List (Nat × Nat)) (result_nodes : List (Nat × Bool)) :
    Except String FmtState :=
  fmtLoop g ⟨[], [], cache0⟩ result_nodes

/-- The rendering decision for one grouped line: `is_alias_line =
node_alias_status[(filename, line_no)]`, and the annotation list gains
`"May alias <seed>"` exactly when that flag is set. -/
def lineFlag (status : List (PyKey × Bool)) (filename : String) (line : Nat) : Option Bool :=
  alookup (PyKey.pair filename line) status

theorem statusUpdate_int_key_never_hits (status : List (PyKey × Bool)) (filename : String)
    (line : Nat) (is_alias : Bool)
    (h : ∀ p ∈ status, ∃ fn ln, p.1 = PyKey.pair fn ln) :
    statusUpdate status filename line is_alias =
      aset (PyKey.pair filename line) is_alias status := by
  unfold statusUpdate
  have hk : keyMem (PyKey.int line) status = false := by
    induction status with
    | nil => rfl
    | cons p rest ih =>
      obtain ⟨fn, ln, hp⟩ := h p (List.mem_cons_self _ _)
      simp only [keyMem, alookup, hp]
      have : PyKey.pair fn ln ≠ PyKey.int line := by simp
      rw [if_neg (by simp [hp])]
      exact ih (fun q hq => h q (List.mem_cons_of_mem _ hq))
  rw [hk]
  simp

end ContextFormatter

namespace CPGService

theorem nodeFill_foldl_vcount : ∀ (l : List (Nat × NodeRec)) (s : IgService),
    (l.foldl nodeFill s).vcount = s.vcount := by
  intro l
  induction l with
  | nil => intro s; rfl
  | cons p rest ih => intro s; rw [List.foldl_cons, ih]; rfl

theorem buildService_vcount (ns : List NodeRec) (es : List EdgeRec) :
    (buildService ns es).vcount = ns.length := by
  unfold buildService
  exact nodeFill_foldl_vcount ns.enum _

theorem edgeKeep_drop (m : List (Nat × Nat)) (acc : List (Nat × Nat × String)) (e : EdgeRec)
    (h : (alookup e.src m).isNone || (alookup e.dst m).isNone) : edgeKeep m acc e = acc := by
  unfold edgeKeep
  cases hs : alookup e.src m with
  | none => rfl
  | some si =>
    cases hd : alookup e.dst m with
    | none => rfl
    | some di => rw [hs, hd] at h; simp at h

theorem edgeKeep_keep (m : List (Nat × Nat)) (acc : List (Nat × Nat × String)) (e : EdgeRec)
    {si di : Nat} (hs : alookup e.src m = some si) (hd : alookup e.dst m = some di) :
    edgeKeep m acc e = acc ++ [(si, di, e.label)] := by
  unfold edgeKeep
  rw [hs, hd]

theorem edgeKeep_foldl_length (m : List (Nat × Nat)) :
    ∀ (es : List EdgeRec) (acc : List (Nat × Nat × String)),
    (es.foldl (edgeKeep m) acc).length +
      es.countP (fun e => (alookup e.src m).isNone || (alookup e.dst m).isNone) =
    acc.length + es.length := by
  intro es
  induction es with
  | nil => intro acc; simp
  | cons e rest ih =>
    intro acc
    rw [List.foldl_cons, List.countP_cons]
    by_cases hdang : ((alookup e.src m).isNone || (alookup e.dst m).isNone) = true
    · rw [edgeKeep_drop m acc e hdang, hdang]
      have := ih acc
      simp only [List.length_cons, if_pos]
      omega
    · have hs : (alookup e.src m).isSome := by
        cases h1 : alookup e.src m <;> simp [h1] at hdang ⊢
      have hd : (alookup e.dst m).isSome := by
        cases h1 : alookup e.dst m with
        | none => rw [h1] at hdang; simp at hdang
        | some v => simp
      obtain ⟨si, hsi⟩ := Option.isSome_iff_exists.mp hs
      obtain ⟨di, hdi⟩ := Option.isSome_iff_exists.mp hd
      rw [edgeKeep_keep m acc e hsi hdi, if_neg hdang]
      have := ih (acc ++ [(si, di, e.label)])
      simp only [List.length_append, List.length_cons, List.length_nil] at this ⊢
      omega

theorem buildService_id_to_idx (ns : List NodeRec) (es : List EdgeRec) :
    (buildService ns es).id_to_idx =
      (ns.enum.foldl nodeFill ⟨ns.length, [], [], [], [], [], [], []⟩).id_to_idx := rfl

/-- `_load_graph` keeps exactly the non-dangling edges: the built edge
count plus the dangling count equals the input edge-list length. -/
theorem buildService_edge_count (ns : List NodeRec) (es : List EdgeRec) :
    (buildService ns es).edges.length + es.countP (isDangling (buildService ns es)) =
      es.length := by
  unfold buildService isDangling
  have := edgeKeep_foldl_length
    ((ns.enum.foldl nodeFill ⟨ns.length, [], [], [], [], [], [], []⟩).id_to_idx) es []
  simpa using this

end CPGService

theorem alookup_cons {κ α : Type} [DecidableEq κ] (k : κ) (p : κ × α) (rest : List (κ × α)) :
    alookup k (p :: rest) = if p.1 = k then some p.2 else alookup k rest := rfl

theorem alookup_append_of_none {κ α : Type} [DecidableEq κ] (k : κ) :
    ∀ (l1 l2 : List (κ × α)), alookup k l1 = none → alookup k (l1 ++ l2) = alookup k l2 := by
  intro l1 l2
  induction l1 with
  | nil => intro _; rfl
  | cons p rest ih =>
    intro h
    rw [alookup_cons] at h
    rw [List.cons_append, alookup_cons]
    by_cases hp : p.1 = k
    · simp [hp] at h
    · rw [if_neg hp] at h ⊢
      exact ih h

theorem alookup_single {κ α : Type} [DecidableEq κ] (k : κ) (v : α) :
    alookup k [(k, v)] = some v := by
  simp [alookup]

section ConcreteGraphs

/-- The spec's concrete scenario record: nodes A(1): METHOD, B(2):
BLOCK, C(3): IDENTIFIER x, D(4): IDENTIFIER y; edges AST(A→B),
AST(B→C), AST(B→D), REACHING_DEF(C→D). -/
def recScenario : CpgRecord :=
  { nodes := some [
      ⟨1, "METHOD", some "m", none, some "a.c", none⟩,
      ⟨2, "BLOCK", none, none, none, none⟩,
      ⟨3, "IDENTIFIER", some "x", none, none, none⟩,
      ⟨4, "IDENTIFIER", some "y", none, none, none⟩],
    edges := some [⟨1, 2, "AST"⟩, ⟨2, 3, "AST"⟩, ⟨2, 4, "AST"⟩, ⟨3, 4, "REACHING_DEF"⟩] }

def gScenario : DiGraph := CpgLoader.load recScenario

/-- The scenario record extended with the dangling edge AST(A→Z), Z = 9
absent from the node list. -/
def recDangling : CpgRecord :=
  { nodes := recScenario.nodes,
    edges := some [⟨1, 2, "AST"⟩, ⟨2, 3, "AST"⟩, ⟨2, 4, "AST"⟩, ⟨3, 4, "REACHING_DEF"⟩,
      ⟨1, 9, "AST"⟩] }

/-- Two nodes with two parallel edges of different kinds on the same
ordered pair. -/
def nsParallel : List NodeRec :=
  [⟨9, "FILE", some "pad", none, none, none⟩,
   ⟨1, "IDENTIFIER", some "a", none, none, none⟩,
   ⟨2, "IDENTIFIER", some "b", none, none, none⟩]

def esParallel : List EdgeRec := [⟨1, 2, "REACHING_DEF"⟩, ⟨1, 2, "CDG"⟩]

def recParallel : CpgRecord := { nodes := some nsParallel, edges := some esParallel }

def gParallel : DiGraph := CpgLoader.load recParallel

def sParallel : IgService := CPGService.buildService nsParallel esParallel

/-- Two METHOD nodes (each its own owner) sharing `(FILENAME, LINE)` —
the renderer groups them on one line. -/
def recTwoOnLine : CpgRecord :=
  { nodes := some [
      ⟨3, "METHOD", some "f", some 10, some "f.c", none⟩,
      ⟨4, "METHOD", some "g2", some 10, some "f.c", none⟩],
    edges := some [] }

def gTwoOnLine : DiGraph := CpgLoader.load recTwoOnLine

/-- A single non-METHOD node with no predecessors: the ownership ascent
is exhausted and yields `None`. -/
def recNoOwner : CpgRecord :=
  { nodes := some [⟨1, "LOCAL", some "v", none, none, none⟩], edges := some [] }

def gNoOwner : DiGraph := CpgLoader.load recNoOwner

theorem ascend_gScenario_3 : CpgLoader.ascendLoop gScenario [3] ∅ = .ok (some 1) := by
  simp [CpgLoader.ascendLoop_cons, CpgLoader.ascendLoop_nil, gScenario, recScenario,
    CpgLoader.load, CpgLoader.attrsOfNode, DiGraph.addNode, DiGraph.addEdge,
    DiGraph.ensureNode, DiGraph.getAttrs, alookup, aset, CpgLoader.structPreds,
    DiGraph.predecessors, DiGraph.nodeIds, DiGraph.getEdgeData]

theorem owner_gScenario_3 :
    CpgLoader.get_method_of_node gScenario [] 3 = .ok (some 1, [(3, 1)]) := by
  simp [CpgLoader.get_method_of_node, alookup, ascend_gScenario_3]

theorem ascend_gNoOwner_1 : CpgLoader.ascendLoop gNoOwner [1] ∅ = .ok none := by
  simp [CpgLoader.ascendLoop_cons, CpgLoader.ascendLoop_nil, gNoOwner, recNoOwner,
    CpgLoader.load, CpgLoader.attrsOfNode, DiGraph.addNode, DiGraph.addEdge,
    DiGraph.ensureNode, DiGraph.getAttrs, alookup, aset, CpgLoader.structPreds,
    DiGraph.predecessors, DiGraph.nodeIds, DiGraph.getEdgeData]

theorem owner_gNoOwner_1 :
    CpgLoader.get_method_of_node gNoOwner [] 1 = .ok (none, []) := by
  simp [CpgLoader.get_method_of_node, alookup, ascend_gNoOwner_1]

end ConcreteGraphs

section ConcreteFormatter

theorem ascend_gTwoOnLine_3 : CpgLoader.ascendLoop gTwoOnLine [3] ∅ = .ok (some 3) := by
  simp [CpgLoader.ascendLoop_cons, CpgLoader.ascendLoop_nil, gTwoOnLine, recTwoOnLine,
    CpgLoader.load, CpgLoader.attrsOfNode, DiGraph.addNode, DiGraph.addEdge,
    DiGraph.ensureNode, DiGraph.getAttrs, alookup, aset]

theorem ascend_gTwoOnLine_4 : CpgLoader.ascendLoop gTwoOnLine [4] ∅ = .ok (some 4) := by
  simp [CpgLoader.ascendLoop_cons, CpgLoader.ascendLoop_nil, gTwoOnLine, recTwoOnLine,
    CpgLoader.load, CpgLoader.attrsOfNode, DiGraph.addNode, DiGraph.addEdge,
    DiGraph.ensureNode, DiGraph.getAttrs, alookup, aset]

theorem owner_gTwoOnLine_3 :
    CpgLoader.get_method_of_node gTwoOnLine [] 3 = .ok (some 3, [(3, 3)]) := by
  simp [CpgLoader.get_method_of_node, alookup, ascend_gTwoOnLine_3]

theorem owner_gTwoOnLine_4 :
    CpgLoader.get_method_of_node gTwoOnLine [(3, 3)] 4 = .ok (some 4, [(3, 3), (4, 4)]) := by
  simp [CpgLoader.get_method_of_node, alookup, aset, ascend_gTwoOnLine_4]

theorem owner_gTwoOnLine_4first :
    CpgLoader.get_method_of_node gTwoOnLine [] 4 = .ok (some 4, [(4, 4)]) := by
  simp [CpgLoader.get_method_of_node, alookup, ascend_gTwoOnLine_4]

theorem owner_gTwoOnLine_3second :
    CpgLoader.get_method_of_node gTwoOnLine [(4, 4)] 3 = .ok (some 3, [(4, 4), (3, 3)]) := by
  simp [CpgLoader.get_method_of_node, alookup, aset, ascend_gTwoOnLine_3]

theorem attrs_gTwoOnLine_3 : gTwoOnLine.getAttrs 3 =
    some ⟨some "METHOD", some "f", some 10, some "f.c", none⟩ := rfl

theorem attrs_gTwoOnLine_4 : gTwoOnLine.getAttrs 4 =
    some ⟨some "METHOD", some "g2", some 10, some "f.c", none⟩ := rfl

/-- Processing a flagged node first and an unflagged node on the same
line second leaves the line unflagged: the last write wins. -/
theorem fmtFlag_order1 :
    (ContextFormatter.fmtScan gTwoOnLine [] [(3, true), (4, false)]).map
      (fun st => ContextFormatter.lineFlag st.status "f.c" 10) = .ok (some false) := by
  simp [ContextFormatter.fmtScan, ContextFormatter.fmtLoop, ContextFormatter.fmtStep,
    owner_gTwoOnLine_3, owner_gTwoOnLine_4, attrs_gTwoOnLine_3, attrs_gTwoOnLine_4,
    ContextFormatter.methodFilename, ContextFormatter.statusUpdate,
    ContextFormatter.groupAdd, ContextFormatter.lineFlag, keyMem, alookup, aset,
    Except.map]

/-- The same two nodes in the opposite order leave the line flagged:
the merge is order dependent. -/
theorem fmtFlag_order2 :
    (ContextFormatter.fmtScan gTwoOnLine [] [(4, false), (3, true)]).map
      (fun st => ContextFormatter.lineFlag st.status "f.c" 10) = .ok (some true) := by
  simp [ContextFormatter.fmtScan, ContextFormatter.fmtLoop, ContextFormatter.fmtStep,
    owner_gTwoOnLine_4first, owner_gTwoOnLine_3second, attrs_gTwoOnLine_3,
    attrs_gTwoOnLine_4, ContextFormatter.methodFilename, ContextFormatter.statusUpdate,
    ContextFormatter.groupAdd, ContextFormatter.lineFlag, keyMem, alookup, aset,
    Except.map]

end ConcreteFormatter

section ConcreteTrace

/-- The igraph loader kept both parallel edges between the same ordered
pair of vertices (indices 1 and 2). -/
theorem sParallel_edges :
    sParallel.edges = [(1, 2, "REACHING_DEF"), (1, 2, "CDG")] := rfl

set_option maxRecDepth 4000 in
/-- Filtering on the first parallel kind reaches the neighbor. -/
theorem trace_sParallel_rd :
    CPGService.trace sParallel 1 "OUT" ["REACHING_DEF"] 5 =
      .hops [⟨"a", "b", "REACHING_DEF", 2, ""⟩] := by
  simp [CPGService.trace, CPGService.traceLoop_cons, CPGService.traceLoop_nil,
    CPGService.traceNbrLoop, CPGService.traceInner, CPGService.traceNbrs,
    CPGService.edgesBetween, CPGService.hopOf, CPGService.nameOrLabel,
    sParallel, CPGService.buildService, CPGService.nodeFill, CPGService.edgeKeep,
    nsParallel, esParallel, alookup, aset, List.enum]
  rfl

set_option maxRecDepth 4000 in
/-- Filtering on the second parallel kind also reaches the neighbor. -/
theorem trace_sParallel_cdg :
    CPGService.trace sParallel 1 "OUT" ["CDG"] 5 =
      .hops [⟨"a", "b", "CDG", 2, ""⟩] := by
  simp [CPGService.trace, CPGService.traceLoop_cons, CPGService.traceLoop_nil,
    CPGService.traceNbrLoop, CPGService.traceInner, CPGService.traceNbrs,
    CPGService.edgesBetween, CPGService.hopOf, CPGService.nameOrLabel,
    sParallel, CPGService.buildService, CPGService.nodeFill, CPGService.edgeKeep,
    nsParallel, esParallel, alookup, aset, List.enum]
  rfl

end ConcreteTrace

section Claims

/-- C1 counterexample: on the spec's own dangling-edge record (4 nodes,
5 edges, the last edge AST(A→Z) with Z = 9 unknown), `CpgLoader.load`
does not drop the edge: the loaded graph has 5 nodes (the unknown
endpoint was silently materialized) and all 5 edges, so the node count
is not the input node-list length (4) and the edge count is not
strictly less than the input edge-list length. -/
theorem claim_C1_counterexample :
    (CpgLoader.load recDangling).nodes.length = 5 ∧
    (CpgLoader.load recDangling).edges.length = 5 ∧
    (recDangling.nodes.getD []).length = 4 ∧
    (recDangling.edges.getD []).length = 5 ∧
    (CpgLoader.load recDangling).nodes.length ≠ (recDangling.nodes.getD []).length := by
  refine ⟨rfl, rfl, rfl, rfl, ?_⟩
  decide

/-- C1 amended: the igraph-based loader `CPGService._load_graph` does
behave as claimed — for every record with both keys present it returns
a service whose vertex count is the input node-list length and whose
edge count plus the number of dangling edges is the input edge-list
length (so with at least one dangling edge the edge count is strictly
smaller), and it does not raise; the networkx-based `CpgLoader.load`
instead keeps dangling edges and silently adds their unknown endpoints
as nodes (see the counterexample). -/
theorem claim_C1_amended (ns : List NodeRec) (es : List EdgeRec) :
    CPGService.loadGraph ⟨some ns, some es⟩ = .ok (CPGService.buildService ns es) ∧
    (CPGService.buildService ns es).vcount = ns.length ∧
    (CPGService.buildService ns es).edges.length +
      es.countP (CPGService.isDangling (CPGService.buildService ns es)) = es.length :=
  ⟨rfl, CPGService.buildService_vcount ns es, CPGService.buildService_edge_count ns es⟩

/-- C2 counterexample: loading a record with two parallel edges
REACHING_DEF and CDG on the ordered pair (1, 2) through `CpgLoader`
(networkx `DiGraph`) keeps only the last edge's kind, and a backward
slice from 2 filtering on REACHING_DEF does not reach node 1 — so the
slicing traversal of `Slicer.slice` has simple-graph, not
directed-multigraph, semantics. -/
theorem claim_C2_counterexample :
    gParallel.edges = [((1, 2), "CDG")] ∧
    Slicer.slice gParallel 2 "backward" 5 (some ["REACHING_DEF"]) =
      .ok ([(2, false)], "b") := by
  constructor
  · rfl
  · rw [Slicer.slice_eq_levelRun]; rfl

/-- C2 amended: the multigraph claim holds for the igraph-based
`CPGService`: `_load_graph` retains both parallel edges and `_trace`
admits the neighbor when any parallel edge's kind is in the filter, so
filtering on either kind reaches it; the networkx-based
`CpgLoader`/`Slicer` pair instead keeps only the last parallel edge's
kind, and its slice reaches the neighbor only when the filter contains
that last kind. -/
theorem claim_C2_amended :
    sParallel.edges = [(1, 2, "REACHING_DEF"), (1, 2, "CDG")] ∧
    CPGService.trace sParallel 1 "OUT" ["REACHING_DEF"] 5 =
      .hops [⟨"a", "b", "REACHING_DEF", 2, ""⟩] ∧
    CPGService.trace sParallel 1 "OUT" ["CDG"] 5 =
      .hops [⟨"a", "b", "CDG", 2, ""⟩] ∧
    Slicer.slice gParallel 2 "backward" 5 (some ["CDG"]) =
      .ok ([(2, false), (1, false)], "b") ∧
    Slicer.slice gParallel 2 "backward" 5 (some ["REACHING_DEF"]) =
      .ok ([(2, false)], "b") := by
  refine ⟨sParallel_edges, trace_sParallel_rd, trace_sParallel_cdg, ?_, ?_⟩
  · rw [Slicer.slice_eq_levelRun]; rfl
  · rw [Slicer.slice_eq_levelRun]; rfl

/-- C3 counterexample: calling `Slicer.slice` with a seed id absent
from the loaded graph raises `KeyError` (the attribute lookup on the
seed) — an exception, not a distinguished normal NotFound outcome. -/
theorem claim_C3_counterexample :
    Slicer.slice gParallel 7 "backward" 5 none = .error "KeyError" := by
  rw [Slicer.slice_eq_levelRun]; rfl

/-- C3 amended: the distinguished, non-exceptional NotFound outcome
exists only in `CPGService._trace`, which returns the "Node not found."
value for any unknown start id; `Slicer.slice` instead raises KeyError
for any unknown seed (and in neither case is an empty slice returned). -/
theorem claim_C3_amended (s : IgService) (start : Nat) (dir : String)
    (et : List String) (md : Nat) (g : DiGraph) (seed : Nat) (dir2 : String)
    (d2 : Nat) (et2 : Option (List String))
    (h1 : alookup start s.id_to_idx = none) (h2 : g.getAttrs seed = none) :
    CPGService.trace s start dir et md = .notFound ∧
    Slicer.slice g seed dir2 d2 et2 = .error "KeyError" := by
  constructor
  · unfold CPGService.trace
    rw [h1]
  · rw [Slicer.slice_eq_levelRun, h2]

/-- C3 witness: the amended statement at a concrete unknown id on both
implementations. -/
theorem claim_C3_witness :
    CPGService.trace sParallel 99 "OUT" [] 5 = .notFound ∧
    Slicer.slice gScenario 99 "backward" 5 none = .error "KeyError" :=
  claim_C3_amended sParallel 99 "OUT" [] 5 gScenario 99 "backward" 5 none rfl rfl

/-- C4: on the spec's concrete scenario graph (A=1 METHOD, B=2 BLOCK,
C=3 IDENTIFIER x, D=4 IDENTIFIER y with AST(A→B), AST(B→C), AST(B→D),
REACHING_DEF(C→D)): the backward REACHING_DEF slice from D at depth 5
is exactly {D, C}; the owner of C is A (and is memoized); and the
depth-0 slice from D is exactly {D} — the cutoff suppresses expansion
but not inclusion of the seed. -/
theorem claim_C4 :
    Slicer.slice gScenario 4 "backward" 5 (some ["REACHING_DEF"]) =
      .ok ([(4, false), (3, false)], "y") ∧
    CpgLoader.get_method_of_node gScenario [] 3 = .ok (some 1, [(3, 1)]) ∧
    Slicer.slice gScenario 4 "backward" 0 (some ["REACHING_DEF"]) =
      .ok ([(4, false)], "y") := by
  refine ⟨?_, owner_gScenario_3, ?_⟩
  · rw [Slicer.slice_eq_levelRun]; rfl
  · rw [Slicer.slice_eq_levelRun]; rfl

/-- C5 counterexample: two nodes grouped on the same (filename, line) =
("f.c", 10), the first flagged and the second unflagged, leave the
line's flag false — the logical OR (which is true) is not computed, so
the merged flag is not the OR of the nodes' flags regardless of
processing order. -/
theorem claim_C5_counterexample :
    (ContextFormatter.fmtScan gTwoOnLine [] [(3, true), (4, false)]).map
      (fun st => ContextFormatter.lineFlag st.status "f.c" 10) = .ok (some false) :=
  fmtFlag_order1

/-- C5 amended: the guarding membership test compares the bare int
`line` against a dict keyed by (filename, line) tuples and therefore
never succeeds, so every processed node unconditionally overwrites the
line's flag entry; the rendered line's flag is the flag of the last
node processed onto that line (order dependent, last write wins), not
the monotone OR of the grouped nodes' flags. -/
theorem claim_C5_amended (status : List (PyKey × Bool)) (fn : String) (ln : Nat)
    (a : Bool) (h : ∀ p ∈ status, ∃ f l, p.1 = PyKey.pair f l) :
    ContextFormatter.statusUpdate status fn ln a = aset (PyKey.pair fn ln) a status ∧
    (ContextFormatter.fmtScan gTwoOnLine [] [(3, true), (4, false)]).map
      (fun st => ContextFormatter.lineFlag st.status "f.c" 10) = .ok (some false) ∧
    (ContextFormatter.fmtScan gTwoOnLine [] [(4, false), (3, true)]).map
      (fun st => ContextFormatter.lineFlag st.status "f.c" 10) = .ok (some true) :=
  ⟨ContextFormatter.statusUpdate_int_key_never_hits status fn ln a h,
   fmtFlag_order1, fmtFlag_order2⟩

/-- C5 witness: the amended statement at the empty status dict. -/
theorem claim_C5_witness :
    ContextFormatter.statusUpdate [] "f.c" 10 true =
      aset (PyKey.pair "f.c" 10) true [] ∧
    (ContextFormatter.fmtScan gTwoOnLine [] [(3, true), (4, false)]).map
      (fun st => ContextFormatter.lineFlag st.status "f.c" 10) = .ok (some false) ∧
    (ContextFormatter.fmtScan gTwoOnLine [] [(4, false), (3, true)]).map
      (fun st => ContextFormatter.lineFlag st.status "f.c" 10) = .ok (some true) :=
  claim_C5_amended [] "f.c" 10 true (by simp)

/-- C6: depth monotonicity of `Slicer.slice` — for a fixed graph, seed,
direction and edge-kind set, every node of the slice at depth d1 is in
the slice at any depth d2 ≥ d1. -/
theorem claim_C6 (g : DiGraph) (seed : Nat) (dir : String) (et : Option (List String))
    (d1 d2 : Nat) (h : d1 ≤ d2) (r1 r2 : List (Nat × Bool)) (n1 n2 : String)
    (h1 : Slicer.slice g seed dir d1 et = .ok (r1, n1))
    (h2 : Slicer.slice g seed dir d2 et = .ok (r2, n2)) :
    ∀ x ∈ r1.map Prod.fst, x ∈ r2.map Prod.fst := by
  rw [Slicer.slice_eq_levelRun] at h1 h2
  cases hA : g.getAttrs seed with
  | none => rw [hA] at h1; exact absurd h1 (by simp)
  | some a =>
    rw [hA] at h1 h2
    simp only [Except.ok.injEq, Prod.mk.injEq] at h1 h2
    intro x hx
    simp only [List.mem_map] at hx ⊢
    obtain ⟨p, hp, hpx⟩ := hx
    refine ⟨p, ?_, hpx⟩
    rw [← h2.1]
    refine Slicer.levelRun_mono g dir (Slicer.resolveKinds et) d1 d2 h
      [seed] {seed} [(seed, false)] p ?_
    rw [h1.1]
    exact hp

/-- C6 witness: the monotonicity theorem applied on the scenario graph
with d1 = 0, d2 = 5 and the seed node. -/
theorem claim_C6_witness :
    (4 : Nat) ∈ ([(4, false), (3, false)] : List (Nat × Bool)).map Prod.fst :=
  claim_C6 gScenario 4 "backward" (some ["REACHING_DEF"]) 0 5 (by omega)
    [(4, false)] [(4, false), (3, false)] "y" "y"
    (by rw [Slicer.slice_eq_levelRun]; rfl)
    (by rw [Slicer.slice_eq_levelRun]; rfl)
    4 (by simp)

/-- C7 counterexample: `CpgLoader.load` on a record missing both keys
does not abort — it returns an (empty) graph handle, and read queries
run on it. -/
theorem claim_C7_counterexample :
    CpgLoader.load ⟨none, none⟩ = DiGraph.mk [] [] ∧
    (CpgLoader.load ⟨none, none⟩).predecessors 5 = [] := ⟨rfl, rfl⟩

/-- C7 amended: only `CPGService._load_graph` aborts with a fatal
KeyError (nodes first, then edges) on a record missing a key, producing
no service object; `CpgLoader.load` instead substitutes empty lists for
the missing keys and returns a (possibly empty) graph handle. -/
theorem claim_C7_amended :
    (∀ e : Option (List EdgeRec),
      CPGService.loadGraph ⟨none, e⟩ = .error "KeyError: nodes") ∧
    (∀ ns : List NodeRec,
      CPGService.loadGraph ⟨some ns, none⟩ = .error "KeyError: edges") ∧
    CpgLoader.load ⟨none, none⟩ = DiGraph.mk [] [] :=
  ⟨fun _ => rfl, fun _ => rfl, rfl⟩

/-- C8 counterexample: on a graph whose only node has no METHOD
ancestor, `get_method_of_node` returns `None` and the memoization cache
stays empty — there is no entry recording the `None` result, so the
repeated query is recomputed, contradicting the claim that the cache
contains an entry for every queried node id including `None` results. -/
theorem claim_C8_counterexample :
    (CpgLoader.get_method_of_node gNoOwner [] 1).map
      (fun p => (p.1, alookup 1 p.2)) = .ok (none, none) := by
  rw [owner_gNoOwner_1]; rfl

/-- C8 amended: after `get_method_of_node` returns `(r, cache')`, the
cache lookup for the queried id equals `r` — in particular a found
method id is answered from the cache on a repeated query — but a `None`
result leaves the cache unchanged (and without an entry), so `None` is
recomputed on every query. -/
theorem claim_C8_amended (g : DiGraph) (cache : List (Nat × Nat)) (nid : Nat)
    (r : Option Nat) (c2 : List (Nat × Nat))
    (h : CpgLoader.get_method_of_node g cache nid = .ok (r, c2)) :
    alookup nid c2 = r ∧ (r = none → c2 = cache) := by
  unfold CpgLoader.get_method_of_node at h
  cases hC : alookup nid cache with
  | some m =>
    rw [hC] at h
    simp only [Except.ok.injEq, Prod.mk.injEq] at h
    refine ⟨?_, ?_⟩
    · rw [← h.2, hC, h.1]
    · intro hr; rw [← h.1] at hr; simp at hr
  | none =>
    rw [hC] at h
    cases hAsc : CpgLoader.ascendLoop g [nid] ∅ with
    | error e => rw [hAsc] at h; simp at h
    | ok o =>
      rw [hAsc] at h
      cases o with
      | some m =>
        simp only [Except.ok.injEq, Prod.mk.injEq] at h
        refine ⟨?_, ?_⟩
        · rw [← h.2, alookup_append_of_none nid cache _ hC, alookup_single, h.1]
        · intro hr; rw [← h.1] at hr; simp at hr
      | none =>
        simp only [Except.ok.injEq, Prod.mk.injEq] at h
        exact ⟨by rw [← h.2, hC, h.1], fun _ => h.2.symm⟩

/-- C8 witness: the amended statement at the ownerless concrete node. -/
theorem claim_C8_witness :
    alookup 1 ([] : List (Nat × Nat)) = (none : Option Nat) ∧
    ((none : Option Nat) = none → ([] : List (Nat × Nat)) = []) :=
  claim_C8_amended gNoOwner [] 1 none [] owner_gNoOwner_1

/-- C9: an omitted (`None`) edge-kind filter is silently replaced by
the default set {REACHING_DEF, CDG, REF} — the slice equals the slice
with that explicit set for every input — and this differs from the
empty-filter behaviour, which yields only the seed, as the concrete
scenario graph shows. -/
theorem claim_C9 :
    (∀ (g : DiGraph) (seed : Nat) (dir : String) (d : Nat),
      Slicer.slice g seed dir d none =
        Slicer.slice g seed dir d (some ["REACHING_DEF", "CDG", "REF"])) ∧
    Slicer.slice gScenario 4 "backward" 5 none = .ok ([(4, false), (3, false)], "y") ∧
    Slicer.slice gScenario 4 "backward" 5 (some []) = .ok ([(4, false)], "y") := by
  refine ⟨fun g seed dir d => rfl, ?_, ?_⟩
  · rw [Slicer.slice_eq_levelRun]; rfl
  · rw [Slicer.slice_eq_levelRun]; rfl

/-- C10: `search_codebase` returns exactly the first 20 matches of the
substring test over NAME and CODE in vertex-index order — matches past
the 20th are never returned, and the result has at most 20 entries. -/
theorem claim_C10 (s : IgService) (q : String) :
    CPGService.search_codebase s q =
      (((List.range s.vcount).filter (CPGService.searchHitTest s q.toLower)).map
        (CPGService.hitOf s)).take 20 ∧
    (CPGService.search_codebase s q).length ≤ 20 := by
  refine ⟨CPGService.search_codebase_take s q, ?_⟩
  rw [CPGService.search_codebase_take s q]
  exact le_trans (List.length_take_le _ _) (le_refl _)

end Claims
